import Mathlib

/-!
Verification of the density-checker cellular automaton (`src/main.rs`).

The program simulates a sequential local rule on a ring of up to 31 cells,
packed into six parallel bit-fields (one `u32` each), and brute-force checks
that the rule solves the density classification task.  We embed the source
shallowly: each `u32` becomes a `Nat` (bit operations are identical for
values below `2 ^ 32`; the one place Rust's wrapping complement `!` appears,
`x &= !(1 << i)`, is modelled by the exact 32-bit mask `4294967295 ^^^ (1 <<< i)`).
-/

/-- The packed configuration state: six bit-fields plus the ring size,
mirroring `struct Configuration` in the source. -/
structure Configuration where
  size : Nat
  value : Nat
  alphabet : Nat
  taken : Nat
  color : Nat
  mem_0 : Nat
  mem_1 : Nat
deriving DecidableEq, Repr

/-- Rust's bitwise complement `!x` on a `u32`, as a `Nat` operation:
xor against the all-ones 32-bit word. -/
def u32not (x : Nat) : Nat := 4294967295 ^^^ x

/-- Source `fn self_assign(mem: &mut u32, to_index: u32, from_index: u32)`:
copy the bit at `fromIdx` onto the bit at `toIdx`. -/
def self_assign (mem : Nat) (toIdx : Nat) (fromIdx : Nat) : Nat :=
  if mem &&& (1 <<< fromIdx) ≠ 0 then mem ||| (1 <<< toIdx)
  else mem &&& u32not (1 <<< toIdx)

/-- Source `fn assign_bool(to: &mut u32, to_index: u32, value: bool)`:
set or clear the bit at `toIdx`. -/
def assign_bool (t : Nat) (toIdx : Nat) (value : Bool) : Nat :=
  if value then t ||| (1 <<< toIdx) else t &&& u32not (1 <<< toIdx)

namespace Configuration

/-- Source `Configuration::new(value, size)`: all fields except `size` and `value`
start at zero (`..Default::default()`). -/
def new (value : Nat) (size : Nat) : Configuration :=
  { size := size, value := value, alphabet := 0, taken := 0,
    color := 0, mem_0 := 0, mem_1 := 0 }

/-- Source `Configuration::apply_local_function(&mut self, left, index)`: the local
transition rule of the automaton, translated branch by branch; Rust's early
returns become nested conditionals, and the sequence of in-place bit writes
becomes a chain of record updates in the same order. -/
def apply_local_function (c : Configuration) (left index : Nat) : Configuration :=
  let left_mask := 1 <<< left
  let index_mask := 1 <<< index
  if c.alphabet &&& left_mask = 0 then
    -- left is boolean
    if c.alphabet &&& index_mask = 0 then
      -- we are boolean as well
      if (c.value &&& left_mask = 0) ↔ (c.value &&& index_mask = 0) then c
      else
        -- kick start: become intermediate, memorise own value, take it
        let c1 := { c with alphabet := c.alphabet ||| index_mask }
        let c2 :=
          if c1.value &&& index_mask ≠ 0 then { c1 with mem_1 := c1.mem_1 ||| index_mask }
          else { c1 with mem_0 := c1.mem_0 ||| index_mask }
        { c2 with taken := c2.taken ||| index_mask }
    else
      -- propagation: revert to boolean and copy the value from the left
      let c1 := { c with alphabet := c.alphabet &&& u32not index_mask }
      { c1 with value := self_assign c1.value index left }
  else
    -- left is intermediate
    if c.alphabet &&& index_mask = 0 ∨
        ¬((c.color &&& left_mask = 0) ↔ (c.color &&& index_mask = 0)) then
      -- scanning: propagate the color and the memory
      let c1 := { c with alphabet := c.alphabet ||| index_mask }
      let c2 := { c1 with color := self_assign c1.color index left }
      let c3 := { c2 with mem_0 := self_assign c2.mem_0 index left }
      let c4 := { c3 with mem_1 := self_assign c3.mem_1 index left }
      if c4.taken &&& index_mask ≠ 0 then c4
      else if c4.value &&& index_mask = 0 then
        -- own value is 0
        if c4.mem_0 &&& index_mask ≠ 0 then c4
        else
          let c5 := { c4 with taken := c4.taken ||| index_mask }
          { c5 with mem_0 := c5.mem_0 ||| index_mask }
      else
        -- own value is 1
        if c4.mem_1 &&& index_mask ≠ 0 then c4
        else
          let c5 := { c4 with taken := c4.taken ||| index_mask }
          { c5 with mem_1 := c5.mem_1 ||| index_mask }
    else
      -- same color: we are the brain of the configuration
      if c.mem_0 &&& left_mask ≠ 0 ∧ c.mem_1 &&& left_mask ≠ 0 then
        -- left has a complete memory set: invert color, reset memory
        let c1 := { c with color := assign_bool c.color index (c.color &&& index_mask == 0) }
        let c2 := { c1 with mem_0 := c1.mem_0 &&& u32not index_mask }
        { c2 with mem_1 := c2.mem_1 &&& u32not index_mask }
      else
        -- revert to boolean for convergence
        let c1 := { c with alphabet := c.alphabet &&& u32not index_mask }
        if c1.mem_1 &&& left_mask ≠ 0 then { c1 with value := assign_bool c1.value index true }
        else { c1 with value := assign_bool c1.value index false }

/-- Source `Configuration::update(&mut self)`: apply the local function at index 0
with left neighbor `size - 1`, then at each index `k` from 1 to `size - 1`
with left neighbor `k - 1`, threading the mutated state through. -/
def update (c : Configuration) : Configuration :=
  (List.range' 1 (c.size - 1)).foldl
    (fun s k => s.apply_local_function (k - 1) k)
    (c.apply_local_function (c.size - 1) 0)

/-- Source `Configuration::has_converged(&self)`. -/
def has_converged (c : Configuration) : Bool :=
  c.alphabet == 0 && (c.value == 0 || c.value == (1 <<< c.size) - 1)

/-- The count of zero bits among the first `size` cells, as computed by the
counting loop at the start of `Configuration::is_correct`. -/
def count_0 (c : Configuration) : Nat :=
  ((List.range c.size).filter (fun k => c.value &&& (1 <<< k) == 0)).length

/-- The count of one bits among the first `size` cells, as computed by the
counting loop at the start of `Configuration::is_correct`. -/
def count_1 (c : Configuration) : Nat :=
  ((List.range c.size).filter (fun k => c.value &&& (1 <<< k) != 0)).length

/-- The `while ! self.has_converged()` loop of `Configuration::is_correct`,
with the running `iteration_count` as `ic` and an explicit recursion bound
`fuel`.  The loop always returns within `c.size + 2 - ic` iterations (the
guard `iteration_count > self.size` fires once `ic` reaches `c.size + 1`),
so any `fuel` with `c.size + 2 ≤ ic + fuel` reproduces the loop exactly;
`is_correct_go_fuel_stable` below proves the fuel is then irrelevant. -/
def is_correct_go (majority : Nat) (fuel : Nat) (c : Configuration) (ic : Nat) :
    Bool × Configuration :=
  match fuel with
  | 0 => (false, c)
  | fuel + 1 =>
    if c.has_converged then (majority == c.value &&& 1, c)
    else if c.size < ic then (false, c)
    else is_correct_go majority fuel c.update (ic + 1)

/-- Source `Configuration::is_correct(&mut self)`: returns the verdict together with
the final (mutated) configuration. -/
def is_correct (c : Configuration) : Bool × Configuration :=
  if count_0 c = count_1 c then (true, c)
  else
    let majority := if count_1 c < count_0 c then 0 else 1
    is_correct_go majority (c.size + 2) c 0

end Configuration

/-- Source `fn find_counter_example(size) -> Option<u32>`: scan the candidate values
in `[0, 1 << (size - 1))` and return one on which `is_correct` fails, or
`none`.  (The source uses a parallel iterator with `take_any(1)`, which may
return any failing candidate; we model the sequential refinement that returns
the first one.) -/
def find_counter_example (size : Nat) : Option Nat :=
  (List.range (1 <<< (size - 1))).find?
    (fun k => !(Configuration.new k size).is_correct.1)

/-! ### Per-cell view of a configuration -/

/-- The six boolean attributes of a single cell, read out of the packed
bit-fields. -/
structure Cell where
  value : Bool
  alphabet : Bool
  taken : Bool
  color : Bool
  mem_0 : Bool
  mem_1 : Bool
deriving DecidableEq, Repr

/-- Read the attributes of cell `i` from a packed configuration. -/
def getCell (c : Configuration) (i : Nat) : Cell :=
  { value := c.value.testBit i, alphabet := c.alphabet.testBit i,
    taken := c.taken.testBit i, color := c.color.testBit i,
    mem_0 := c.mem_0.testBit i, mem_1 := c.mem_1.testBit i }

/-- The local transition rule as a pure per-cell function, written from the
specification's transition table (§4.2): `localTransition self left` is the
new state of `self` given its left neighbor `left`; the left neighbor is
never modified. -/
def localTransition (self left : Cell) : Cell :=
  if left.alphabet = false then
    if self.alphabet = false then
      -- both Boolean: agree → no change; disagree → kick-start
      if self.value = left.value then self
      else { self with alphabet := true, taken := true,
                       mem_0 := self.mem_0 || !self.value,
                       mem_1 := self.mem_1 || self.value }
    else
      -- left Boolean, self Intermediate: revert to Boolean, adopt left's value
      { self with alphabet := false, value := left.value }
  else
    if self.alphabet = false ∨ left.color ≠ self.color then
      -- scanning: become Intermediate, copy color and memory from the left
      let s := { self with alphabet := true, color := left.color,
                           mem_0 := left.mem_0, mem_1 := left.mem_1 }
      if s.taken then s
      else if (if s.value then s.mem_1 else s.mem_0) then s
      else if s.value then { s with taken := true, mem_1 := true }
      else { s with taken := true, mem_0 := true }
    else
      -- both Intermediate, same color
      if left.mem_0 ∧ left.mem_1 then
        { self with color := !self.color, mem_0 := false, mem_1 := false }
      else
        { self with alphabet := false, value := left.mem_1 }

/-- The cell states after one sequential sweep, per the specification's words:
cell 0 is updated against the pre-sweep state of cell `size - 1`, and each
cell `k + 1` against the already-updated state of cell `k`. -/
def specCell (c : Configuration) : Nat → Cell
  | 0 => localTransition (getCell c 0) (getCell c (c.size - 1))
  | k + 1 => localTransition (getCell c (k + 1)) (specCell c k)

/-- The state of a sweep after the first `m + 1` cells (cells `0, …, m`)
have been processed: cell 0 against `size - 1`, then cells `1, …, m` each
against its predecessor.  `update c = sweepUpTo c (c.size - 1)`. -/
def sweepUpTo (c : Configuration) (m : Nat) : Configuration :=
  (List.range' 1 m).foldl
    (fun s k => s.apply_local_function (k - 1) k)
    (c.apply_local_function (c.size - 1) 0)

/-- All six bit-fields have every bit at positions `≥ size` equal to zero,
stated as the equivalent numeric bounds. -/
def Configuration.fields_lt (c : Configuration) : Prop :=
  c.value < 2 ^ c.size ∧ c.alphabet < 2 ^ c.size ∧ c.taken < 2 ^ c.size ∧
  c.color < 2 ^ c.size ∧ c.mem_0 < 2 ^ c.size ∧ c.mem_1 < 2 ^ c.size

instance (c : Configuration) : Decidable c.fields_lt := by
  unfold Configuration.fields_lt
  infer_instance

/-! ### Bit-manipulation lemmas -/

theorem testBit_set_self (x i : Nat) : (x ||| (1 <<< i)).testBit i = true := by
  simp [Nat.testBit_lor, Nat.one_shiftLeft, Nat.testBit_two_pow]

theorem testBit_set_ne (x i j : Nat) (h : j ≠ i) :
    (x ||| (1 <<< i)).testBit j = x.testBit j := by
  simp [Nat.testBit_lor, Nat.one_shiftLeft, Nat.testBit_two_pow, (Ne.symm h)]

theorem testBit_u32not (x i : Nat) : (u32not x).testBit i = (decide (i < 32) ^^ x.testBit i) := by
  have h : (4294967295 : Nat) = 2 ^ 32 - 1 := by norm_num
  rw [u32not, h, Nat.testBit_xor, Nat.testBit_two_pow_sub_one]

theorem testBit_clear_self (x i : Nat) (h : i < 32) :
    (x &&& u32not (1 <<< i)).testBit i = false := by
  simp [Nat.testBit_land, testBit_u32not, Nat.one_shiftLeft, Nat.testBit_two_pow, h]

theorem testBit_clear_ne (x i j : Nat) (h : j ≠ i) (h2 : j < 32) :
    (x &&& u32not (1 <<< i)).testBit j = x.testBit j := by
  simp [Nat.testBit_land, testBit_u32not, Nat.one_shiftLeft, Nat.testBit_two_pow, h2, Ne.symm h]

theorem and_shl_eq_zero (x i : Nat) : (x &&& (1 <<< i) = 0) ↔ x.testBit i = false := by
  rw [Nat.one_shiftLeft, Nat.and_two_pow]
  cases h : x.testBit i <;> simp [h]

theorem self_assign_testBit_to (mem t f : Nat) (h : t < 32) :
    (self_assign mem t f).testBit t = mem.testBit f := by
  rw [self_assign]
  split
  · next hcond =>
    rw [Ne, and_shl_eq_zero] at hcond
    simp only [Bool.not_eq_false] at hcond
    simp [testBit_set_self, hcond]
  · next hcond =>
    rw [Ne, not_not, and_shl_eq_zero] at hcond
    simp [testBit_clear_self _ _ h, hcond]

theorem self_assign_testBit_ne (mem t f j : Nat) (h : j ≠ t) (h2 : j < 32) :
    (self_assign mem t f).testBit j = mem.testBit j := by
  rw [self_assign]
  split
  · rw [testBit_set_ne _ _ _ h]
  · rw [testBit_clear_ne _ _ _ h h2]

theorem assign_bool_testBit_to (x t : Nat) (b : Bool) (h : t < 32) :
    (assign_bool x t b).testBit t = b := by
  cases b <;> simp [assign_bool, testBit_set_self, testBit_clear_self _ _ h]

theorem assign_bool_testBit_ne (x t : Nat) (b : Bool) (j : Nat) (h : j ≠ t) (h2 : j < 32) :
    (assign_bool x t b).testBit j = x.testBit j := by
  cases b <;> simp [assign_bool, testBit_set_ne _ _ _ h, testBit_clear_ne _ _ _ h h2]

theorem and_shl_beq_zero (x i : Nat) : (x &&& (1 <<< i) == 0) = !x.testBit i := by
  cases h : x.testBit i <;> simp [and_shl_eq_zero, h]

theorem and_shl_ne_zero (x i : Nat) : (x &&& (1 <<< i) ≠ 0) ↔ x.testBit i = true := by
  rw [Ne, and_shl_eq_zero]
  cases h : x.testBit i <;> simp

/-- The local function, viewed at its own cell, is exactly the pure
transition of the specification's table applied to (self, left). -/
theorem getCell_apply_local (c : Configuration) (l i : Nat) (hi : i < 32) :
    getCell (c.apply_local_function l i) i = localTransition (getCell c i) (getCell c l) := by
  simp only [Configuration.apply_local_function, and_shl_eq_zero, and_shl_ne_zero,
    and_shl_beq_zero, self_assign_testBit_to _ _ _ hi]
  split_ifs <;>
    simp_all [getCell, localTransition, testBit_set_self, testBit_clear_self _ _ hi,
      self_assign_testBit_to _ _ _ hi, assign_bool_testBit_to _ _ _ hi]

/-- The local function writes only bits at position `index`: every other
cell of the ring is untouched. -/
theorem getCell_apply_local_ne (c : Configuration) (l i j : Nat) (hj : j ≠ i) (hj32 : j < 32) :
    getCell (c.apply_local_function l i) j = getCell c j := by
  simp only [Configuration.apply_local_function]
  split_ifs <;>
    simp_all [getCell, testBit_set_ne _ _ _ hj, testBit_clear_ne _ _ _ hj hj32,
      self_assign_testBit_ne _ _ _ _ hj hj32, assign_bool_testBit_ne _ _ _ _ hj hj32]

theorem apply_local_size (c : Configuration) (l i : Nat) :
    (c.apply_local_function l i).size = c.size := by
  simp only [Configuration.apply_local_function]
  split_ifs <;> rfl

theorem foldl_apply_local_size (L : List Nat) (acc : Configuration) :
    (L.foldl (fun s k => s.apply_local_function (k - 1) k) acc).size = acc.size := by
  induction L generalizing acc with
  | nil => rfl
  | cons a t ih =>
    rw [List.foldl_cons, ih, apply_local_size]

theorem update_size (c : Configuration) : c.update.size = c.size := by
  rw [Configuration.update, foldl_apply_local_size, apply_local_size]

/-! ### One sweep, cell by cell -/

theorem update_eq_sweepUpTo (c : Configuration) : c.update = sweepUpTo c (c.size - 1) := rfl

theorem sweepUpTo_succ (c : Configuration) (m : Nat) :
    sweepUpTo c (m + 1) = (sweepUpTo c m).apply_local_function m (m + 1) := by
  have h : (1 : Nat) + 1 * m = m + 1 := by omega
  rw [sweepUpTo, List.range'_concat, List.foldl_append, h]
  simp [sweepUpTo]

/-- Invariant of the sequential sweep: after cells `0, …, m` have been
processed, the processed cells hold the spec's sequentially-updated states
and the unprocessed cells still hold their pre-sweep states. -/
theorem sweepUpTo_spec (c : Configuration) (h2 : c.size ≤ 31) :
    ∀ m, m ≤ c.size - 1 →
      (∀ j, j < 32 → m < j → getCell (sweepUpTo c m) j = getCell c j) ∧
      (∀ j, j ≤ m → getCell (sweepUpTo c m) j = specCell c j) := by
  intro m
  induction m with
  | zero =>
    intro _
    constructor
    · intro j hj32 hj
      exact getCell_apply_local_ne c (c.size - 1) 0 j (by omega) hj32
    · intro j hj
      have hj0 : j = 0 := Nat.le_zero.mp hj
      subst hj0
      exact getCell_apply_local c (c.size - 1) 0 (by omega)
  | succ m ih =>
    intro hm
    have ihm := ih (by omega)
    have hm32 : m + 1 < 32 := by omega
    constructor
    · intro j hj32 hj
      rw [sweepUpTo_succ, getCell_apply_local_ne _ _ _ _ (by omega) hj32]
      exact ihm.1 j hj32 (by omega)
    · intro j hj
      rcases Nat.lt_or_ge j (m + 1) with hlt | hge
      · rw [sweepUpTo_succ, getCell_apply_local_ne _ _ _ _ (by omega) (by omega)]
        exact ihm.2 j (by omega)
      · have hj1 : j = m + 1 := by omega
        subst hj1
        rw [sweepUpTo_succ, getCell_apply_local _ _ _ hm32,
          ihm.1 (m + 1) hm32 (by omega), ihm.2 m (by omega)]
        rfl

/-! ### The correctness-oracle loop -/

/-- With enough fuel (and `ic` within the loop's reachable range), adding
more fuel does not change the result: the explicit bound in
`is_correct_go` is semantically irrelevant, it only makes the `while`
loop's recursion structural. -/
theorem is_correct_go_fuel_stable (maj : Nat) :
    ∀ fuel (c : Configuration) (ic : Nat), c.size + 2 ≤ ic + fuel → ic ≤ c.size + 1 →
      Configuration.is_correct_go maj (fuel + 1) c ic =
        Configuration.is_correct_go maj fuel c ic := by
  intro fuel
  induction fuel with
  | zero => intro c ic h1 h2; omega
  | succ fuel ih =>
    intro c ic h1 h2
    rw [Configuration.is_correct_go]
    conv_rhs => rw [Configuration.is_correct_go]
    by_cases hc : c.has_converged = true
    · simp [hc]
    · by_cases hic : c.size < ic
      · simp [hc, hic]
      · simp only [hc, hic, if_neg, if_false, Bool.false_eq_true]
        exact ih c.update (ic + 1) (by rw [update_size]; omega) (by rw [update_size]; omega)

/-- If the loop of `is_correct` answers `true`, the configuration converged
after exactly some `t ≤ size + 1 - ic` further sweeps, exactly `t` more
`update` calls were made, and the returned configuration is the `t`-th
iterate. -/
theorem is_correct_go_true (maj : Nat) :
    ∀ fuel (c : Configuration) (ic : Nat), c.size + 2 ≤ ic + fuel → ic ≤ c.size + 1 →
      (Configuration.is_correct_go maj fuel c ic).1 = true →
      ∃ t, ic + t ≤ c.size + 1 ∧ (Configuration.update^[t] c).has_converged = true ∧
        (∀ s, s < t → (Configuration.update^[s] c).has_converged = false) ∧
        (Configuration.is_correct_go maj fuel c ic).2 = Configuration.update^[t] c := by
  intro fuel
  induction fuel with
  | zero => intro c ic h1 h2 h3; omega
  | succ fuel ih =>
    intro c ic h1 h2 h3
    by_cases hc : c.has_converged = true
    · refine ⟨0, by omega, by simpa using hc, by omega, ?_⟩
      rw [Configuration.is_correct_go, if_pos hc]
      simp
    · by_cases hic : c.size < ic
      · rw [Configuration.is_correct_go, if_neg hc, if_pos hic] at h3
        simp at h3
      · have h3' : (Configuration.is_correct_go maj fuel c.update (ic + 1)).1 = true := by
          rw [Configuration.is_correct_go, if_neg hc, if_neg hic] at h3
          exact h3
        obtain ⟨t, ht1, ht2, ht3, ht4⟩ :=
          ih c.update (ic + 1) (by rw [update_size]; omega) (by rw [update_size]; omega) h3'
        rw [update_size] at ht1
        refine ⟨t + 1, by omega, ?_, ?_, ?_⟩
        · rw [Function.iterate_succ_apply]
          exact ht2
        · intro s hs
          cases s with
          | zero => simpa using hc
          | succ s' =>
            rw [Function.iterate_succ_apply]
            exact ht3 s' (by omega)
        · rw [Configuration.is_correct_go, if_neg hc, if_neg hic,
            Function.iterate_succ_apply]
          exact ht4

/-- If the configuration does not converge within `size + 1 - ic` further
sweeps, the loop of `is_correct` answers `false`. -/
theorem is_correct_go_false (maj : Nat) :
    ∀ fuel (c : Configuration) (ic : Nat), ic ≤ c.size + 1 →
      (∀ t, ic + t ≤ c.size + 1 → (Configuration.update^[t] c).has_converged = false) →
      (Configuration.is_correct_go maj fuel c ic).1 = false := by
  intro fuel
  induction fuel with
  | zero => intro c ic h2 h3; rfl
  | succ fuel ih =>
    intro c ic h2 h3
    by_cases hc : c.has_converged = true
    · have := h3 0 (by omega)
      simp only [Function.iterate_zero_apply] at this
      rw [this] at hc
      simp at hc
    · by_cases hic : c.size < ic
      · rw [Configuration.is_correct_go, if_neg hc, if_pos hic]
      · rw [Configuration.is_correct_go, if_neg hc, if_neg hic]
        refine ih c.update (ic + 1) (by rw [update_size]; omega) ?_
        intro t ht
        rw [update_size] at ht
        have := h3 (t + 1) (by omega)
        rw [Function.iterate_succ_apply] at this
        exact this

/-! ### Identity of the local function at a converged cell -/

/-- When the left neighbor and the cell itself are both Boolean with equal
values, the local function returns the configuration untouched. -/
theorem apply_local_id (c : Configuration) (l i : Nat)
    (hAl : c.alphabet.testBit l = false) (hAi : c.alphabet.testBit i = false)
    (hv : c.value.testBit l = c.value.testBit i) : c.apply_local_function l i = c := by
  simp only [Configuration.apply_local_function, and_shl_eq_zero, and_shl_ne_zero]
  rw [if_pos hAl, if_pos hAi, if_pos (by rw [hv])]

theorem foldl_apply_local_id (c : Configuration) (L : List Nat)
    (h : ∀ k ∈ L, c.apply_local_function (k - 1) k = c) :
    L.foldl (fun s k => s.apply_local_function (k - 1) k) c = c := by
  induction L with
  | nil => rfl
  | cons a t ih =>
    rw [List.foldl_cons, h a (by simp), ih (fun k hk => h k (by simp [hk]))]

/-- A converged configuration is a fixed point of `update`. -/
theorem update_of_converged (c : Configuration) (h1 : 1 ≤ c.size)
    (hc : c.has_converged = true) : c.update = c := by
  have hconv : c.alphabet = 0 ∧ (c.value = 0 ∨ c.value = (1 <<< c.size) - 1) := by
    simpa [Configuration.has_converged] using hc
  have hA : ∀ j, c.alphabet.testBit j = false := by
    intro j
    rw [hconv.1, Nat.zero_testBit]
  have hV : ∀ j j', j < c.size → j' < c.size → c.value.testBit j = c.value.testBit j' := by
    intro j j' hj hj'
    rcases hconv.2 with h0 | h1
    · rw [h0, Nat.zero_testBit, Nat.zero_testBit]
    · rw [h1, Nat.one_shiftLeft, Nat.testBit_two_pow_sub_one, Nat.testBit_two_pow_sub_one]
      simp [hj, hj']
  have hbase : c.apply_local_function (c.size - 1) 0 = c :=
    apply_local_id c _ _ (hA _) (hA _) (hV _ _ (by omega) (by omega))
  rw [Configuration.update, hbase]
  refine foldl_apply_local_id c _ ?_
  intro k hk
  rw [List.mem_range'_1] at hk
  exact apply_local_id c _ _ (hA _) (hA _) (hV _ _ (by omega) (by omega))

/-! ### Bits beyond the ring size stay clear -/

theorem shl_one_lt {n i : Nat} (hi : i < n) : (1 <<< i) < 2 ^ n := by
  rw [Nat.one_shiftLeft]
  exact Nat.pow_lt_pow_right (by norm_num) hi

theorem or_shl_lt {x n : Nat} (hx : x < 2 ^ n) {i : Nat} (hi : i < n) :
    x ||| (1 <<< i) < 2 ^ n :=
  Nat.or_lt_two_pow hx (shl_one_lt hi)

theorem and_any_lt {x n : Nat} (hx : x < 2 ^ n) (m : Nat) : x &&& m < 2 ^ n :=
  Nat.lt_of_le_of_lt Nat.and_le_left hx

theorem self_assign_lt {x n : Nat} (hx : x < 2 ^ n) {i : Nat} (hi : i < n) (l : Nat) :
    self_assign x i l < 2 ^ n := by
  rw [self_assign]
  split
  · exact or_shl_lt hx hi
  · exact and_any_lt hx _

theorem assign_bool_lt {x n : Nat} (hx : x < 2 ^ n) {i : Nat} (hi : i < n) (b : Bool) :
    assign_bool x i b < 2 ^ n := by
  cases b <;> rw [assign_bool]
  · exact and_any_lt hx _
  · exact or_shl_lt hx hi

theorem apply_local_fields_lt (c : Configuration) (l i : Nat) (hi : i < c.size)
    (h : c.fields_lt) : (c.apply_local_function l i).fields_lt := by
  obtain ⟨h1, h2, h3, h4, h5, h6⟩ := h
  simp only [Configuration.apply_local_function, Configuration.fields_lt]
  split_ifs <;>
    refine ⟨?_, ?_, ?_, ?_, ?_, ?_⟩ <;>
    dsimp only <;>
    first
    | exact h1 | exact h2 | exact h3 | exact h4 | exact h5 | exact h6
    | exact or_shl_lt h1 hi | exact or_shl_lt h2 hi | exact or_shl_lt h3 hi
    | exact or_shl_lt h5 hi | exact or_shl_lt h6 hi
    | exact and_any_lt h2 _ | exact and_any_lt h5 _ | exact and_any_lt h6 _
    | exact self_assign_lt h1 hi _ | exact self_assign_lt h4 hi _
    | exact self_assign_lt h5 hi _ | exact self_assign_lt h6 hi _
    | exact or_shl_lt (self_assign_lt h5 hi _) hi
    | exact or_shl_lt (self_assign_lt h6 hi _) hi
    | exact assign_bool_lt h1 hi _ | exact assign_bool_lt h4 hi _

theorem foldl_fields_lt (n : Nat) (L : List Nat) (hL : ∀ k ∈ L, k < n) :
    ∀ acc : Configuration, acc.size = n → acc.fields_lt →
      (L.foldl (fun s k => s.apply_local_function (k - 1) k) acc).fields_lt := by
  induction L with
  | nil => intro acc _ h; exact h
  | cons a t ih =>
    intro acc hsz h
    rw [List.foldl_cons]
    refine ih (fun k hk => hL k (by simp [hk])) _ ?_ ?_
    · rw [apply_local_size, hsz]
    · exact apply_local_fields_lt acc _ a (by rw [hsz]; exact hL a (by simp)) h

/-- One sweep preserves the field bounds: the local function only ever
writes bits at positions below `size`. -/
theorem update_fields_lt (c : Configuration) (h1 : 1 ≤ c.size) (h : c.fields_lt) :
    c.update.fields_lt := by
  rw [Configuration.update]
  refine foldl_fields_lt c.size _ ?_ _ (apply_local_size c _ 0)
    (apply_local_fields_lt c _ 0 (by omega) h)
  intro k hk
  rw [List.mem_range'_1] at hk
  omega

/-! ### Characterising `has_converged` -/

theorem testBit_false_of_le {x n i : Nat} (hx : x < 2 ^ n) (h : n ≤ i) : x.testBit i = false :=
  Nat.testBit_lt_two_pow (lt_of_lt_of_le hx (Nat.pow_le_pow_right (by norm_num) h))

theorem eq_zero_iff_forall_testBit {x n : Nat} (hx : x < 2 ^ n) :
    x = 0 ↔ ∀ k, k < n → x.testBit k = false := by
  constructor
  · intro h k _
    rw [h, Nat.zero_testBit]
  · intro h
    refine Nat.eq_of_testBit_eq fun i => ?_
    rw [Nat.zero_testBit]
    rcases Nat.lt_or_ge i n with hi | hi
    · exact h i hi
    · exact testBit_false_of_le hx hi

theorem eq_pow_sub_one_iff_forall_testBit {x n : Nat} (hx : x < 2 ^ n) :
    x = 2 ^ n - 1 ↔ ∀ k, k < n → x.testBit k = true := by
  constructor
  · intro h k hk
    rw [h, Nat.testBit_two_pow_sub_one]
    simpa using hk
  · intro h
    refine Nat.eq_of_testBit_eq fun i => ?_
    rw [Nat.testBit_two_pow_sub_one]
    rcases Nat.lt_or_ge i n with hi | hi
    · simp [hi, h i hi]
    · have hni : ¬i < n := by omega
      rw [testBit_false_of_le hx hi]
      simp [hni]

theorem iterate_update_size (c : Configuration) (n : Nat) :
    (Configuration.update^[n] c).size = c.size := by
  induction n with
  | zero => rfl
  | succ n ih => rw [Function.iterate_succ_apply', update_size, ih]

/-! ### The claims -/

/-- Claim C1, counterexample.  The claim says `is_correct` returns `false`
whenever convergence has not occurred within `size` sweeps, and that a
`true` answer means at most `size` updates were performed.  At
`Configuration::new(2, 3)` (ring `0 1 0`, counts 2 ≠ 1, value within range)
the configuration is not converged after any of sweeps `0, …, 3 = size`,
yet `is_correct` returns `true` (it converges at sweep `size + 1 = 4`,
which the loop guard `iteration_count > size` still admits). -/
theorem c1_counterexample :
    Configuration.count_0 (Configuration.new 2 3) ≠
      Configuration.count_1 (Configuration.new 2 3) ∧
    (Configuration.new 2 3).value < 2 ^ (Configuration.new 2 3).size ∧
    (∀ t, t ≤ 3 → (Configuration.update^[t] (Configuration.new 2 3)).has_converged = false) ∧
    (Configuration.new 2 3).is_correct.1 = true := by
  decide

/-- Claim C1, amended.  For every Configuration with `1 ≤ size ≤ 31`,
`value < 2^size` and unequal counts of 0s and 1s, `is_correct()` repeatedly
calls `update()` until `has_converged()` holds or the sweep count exceeds
`size`, and returns `false` whenever convergence has not occurred within
`size + 1` sweeps; consequently, whenever it returns `true`, convergence
first held after some `t ≤ size + 1` sweeps and exactly those `t` calls to
`update()` were performed (the returned state is the `t`-th iterate). -/
theorem c1_theorem (c : Configuration) (h1 : 1 ≤ c.size) (h2 : c.size ≤ 31)
    (h3 : c.value < 2 ^ c.size)
    (h4 : Configuration.count_0 c ≠ Configuration.count_1 c) :
    (c.is_correct.1 = true →
      ∃ t, t ≤ c.size + 1 ∧ (Configuration.update^[t] c).has_converged = true ∧
        (∀ s, s < t → (Configuration.update^[s] c).has_converged = false) ∧
        c.is_correct.2 = Configuration.update^[t] c) ∧
    ((∀ t, t ≤ c.size + 1 → (Configuration.update^[t] c).has_converged = false) →
      c.is_correct.1 = false) := by
  have hunfold : c.is_correct =
      Configuration.is_correct_go
        (if Configuration.count_1 c < Configuration.count_0 c then 0 else 1)
        (c.size + 2) c 0 := by
    rw [Configuration.is_correct, if_neg h4]
  constructor
  · intro htrue
    rw [hunfold] at htrue
    obtain ⟨t, ht1, ht2, ht3, ht4⟩ :=
      is_correct_go_true _ _ c 0 (by omega) (by omega) htrue
    rw [hunfold]
    exact ⟨t, by omega, ht2, ht3, ht4⟩
  · intro hall
    rw [hunfold]
    exact is_correct_go_false _ _ c 0 (by omega) (fun t ht => hall t (by omega))

theorem c1_witness :
    (1 ≤ (Configuration.new 2 3).size ∧ (Configuration.new 2 3).size ≤ 31 ∧
      (Configuration.new 2 3).value < 2 ^ (Configuration.new 2 3).size ∧
      Configuration.count_0 (Configuration.new 2 3) ≠
        Configuration.count_1 (Configuration.new 2 3)) ∧
    (((Configuration.new 2 3).is_correct.1 = true →
      ∃ t, t ≤ (Configuration.new 2 3).size + 1 ∧
        (Configuration.update^[t] (Configuration.new 2 3)).has_converged = true ∧
        (∀ s, s < t →
          (Configuration.update^[s] (Configuration.new 2 3)).has_converged = false) ∧
        (Configuration.new 2 3).is_correct.2 =
          Configuration.update^[t] (Configuration.new 2 3)) ∧
    ((∀ t, t ≤ (Configuration.new 2 3).size + 1 →
        (Configuration.update^[t] (Configuration.new 2 3)).has_converged = false) →
      (Configuration.new 2 3).is_correct.1 = false)) :=
  ⟨⟨by decide, by decide, by decide, by decide⟩,
    c1_theorem (Configuration.new 2 3) (by decide) (by decide) (by decide) (by decide)⟩

/-- Claim C2.  For every Configuration with `1 ≤ size ≤ 31`, `update()`
applies the local rule to each cell exactly once in index order: the cells
of the updated configuration are exactly the sequential per-cell states of
the spec's table (`specCell`), where cell 0 is computed from the pre-sweep
state of cell `size - 1` and each later cell `k` from the already-updated
state of cell `k - 1`; the size is untouched. -/
theorem c2_theorem (c : Configuration) (h1 : 1 ≤ c.size) (h2 : c.size ≤ 31) :
    c.update.size = c.size ∧ ∀ k, k < c.size → getCell c.update k = specCell c k := by
  refine ⟨update_size c, ?_⟩
  intro k hk
  rw [update_eq_sweepUpTo]
  exact (sweepUpTo_spec c h2 (c.size - 1) (le_refl _)).2 k (by omega)

theorem c2_witness :
    (1 ≤ (Configuration.new 2 3).size ∧ (Configuration.new 2 3).size ≤ 31) ∧
    ((Configuration.new 2 3).update.size = (Configuration.new 2 3).size ∧
      ∀ k, k < (Configuration.new 2 3).size →
        getCell (Configuration.new 2 3).update k = specCell (Configuration.new 2 3) k) :=
  ⟨⟨by decide, by decide⟩, c2_theorem (Configuration.new 2 3) (by decide) (by decide)⟩

/-- Claim C3.  For every size in `[2, 31]`, `find_counter_example(size)`
enumerates exactly the candidates in `[0, 2^(size-1))`: it returns
`some k` only for a `k` in that range on which `is_correct` is `false`,
and it returns `none` iff `is_correct` is `true` on every candidate in
the range. -/
theorem c3_theorem (size : Nat) (h1 : 2 ≤ size) (h2 : size ≤ 31) :
    (∀ k, find_counter_example size = some k →
      k < 2 ^ (size - 1) ∧ (Configuration.new k size).is_correct.1 = false) ∧
    (find_counter_example size = none ↔
      ∀ k, k < 2 ^ (size - 1) → (Configuration.new k size).is_correct.1 = true) := by
  constructor
  · intro k hk
    have hmem := List.mem_of_find?_eq_some hk
    have hp := List.find?_some hk
    rw [List.mem_range, Nat.one_shiftLeft] at hmem
    simp only [Bool.not_eq_true'] at hp
    exact ⟨hmem, hp⟩
  · rw [find_counter_example, List.find?_eq_none]
    simp [List.mem_range, Nat.one_shiftLeft]

theorem c3_witness :
    (2 ≤ 2 ∧ 2 ≤ 31) ∧
    ((∀ k, find_counter_example 2 = some k →
      k < 2 ^ (2 - 1) ∧ (Configuration.new k 2).is_correct.1 = false) ∧
    (find_counter_example 2 = none ↔
      ∀ k, k < 2 ^ (2 - 1) → (Configuration.new k 2).is_correct.1 = true)) :=
  ⟨⟨by decide, by decide⟩, c3_theorem 2 (by decide) (by decide)⟩

/-- Claim C4.  With both the left neighbor and the cell at `index`
Intermediate and of equal color: a complete memory set at the left makes
the cell invert its own color and clear both its memory bits while staying
Intermediate; otherwise the cell reverts to Boolean and its value bit
becomes the left neighbor's `mem_1` bit. -/
theorem c4_theorem (c : Configuration) (l i : Nat) (hi32 : i < 32)
    (hAl : c.alphabet.testBit l = true) (hAi : c.alphabet.testBit i = true)
    (hC : c.color.testBit l = c.color.testBit i) :
    (c.mem_0.testBit l = true ∧ c.mem_1.testBit l = true →
      (c.apply_local_function l i).alphabet.testBit i = true ∧
      (c.apply_local_function l i).color.testBit i = !c.color.testBit i ∧
      (c.apply_local_function l i).mem_0.testBit i = false ∧
      (c.apply_local_function l i).mem_1.testBit i = false) ∧
    (¬(c.mem_0.testBit l = true ∧ c.mem_1.testBit l = true) →
      (c.apply_local_function l i).alphabet.testBit i = false ∧
      (c.apply_local_function l i).value.testBit i = c.mem_1.testBit l) := by
  have hb := getCell_apply_local c l i hi32
  constructor
  · intro hm
    simp [localTransition, getCell, hAl, hAi, hC, hm.1, hm.2] at hb
    exact ⟨hb.2.1, hb.2.2.2.1, hb.2.2.2.2⟩
  · intro hm
    simp [localTransition, getCell, hAl, hAi, hC, hm] at hb
    exact ⟨hb.2.1, hb.1⟩

theorem c4_witness :
    (1 < 32 ∧ (Configuration.mk 2 0 3 0 0 3 3).alphabet.testBit 0 = true ∧
      (Configuration.mk 2 0 3 0 0 3 3).alphabet.testBit 1 = true ∧
      (Configuration.mk 2 0 3 0 0 3 3).color.testBit 0 =
        (Configuration.mk 2 0 3 0 0 3 3).color.testBit 1) ∧
    ((Configuration.mk 2 0 3 0 0 3 3).mem_0.testBit 0 = true ∧
        (Configuration.mk 2 0 3 0 0 3 3).mem_1.testBit 0 = true →
      ((Configuration.mk 2 0 3 0 0 3 3).apply_local_function 0 1).alphabet.testBit 1 = true ∧
      ((Configuration.mk 2 0 3 0 0 3 3).apply_local_function 0 1).color.testBit 1 =
        !(Configuration.mk 2 0 3 0 0 3 3).color.testBit 1 ∧
      ((Configuration.mk 2 0 3 0 0 3 3).apply_local_function 0 1).mem_0.testBit 1 = false ∧
      ((Configuration.mk 2 0 3 0 0 3 3).apply_local_function 0 1).mem_1.testBit 1 = false) ∧
    (¬((Configuration.mk 2 0 3 0 0 3 3).mem_0.testBit 0 = true ∧
        (Configuration.mk 2 0 3 0 0 3 3).mem_1.testBit 0 = true) →
      ((Configuration.mk 2 0 3 0 0 3 3).apply_local_function 0 1).alphabet.testBit 1 = false ∧
      ((Configuration.mk 2 0 3 0 0 3 3).apply_local_function 0 1).value.testBit 1 =
        (Configuration.mk 2 0 3 0 0 3 3).mem_1.testBit 0) :=
  ⟨⟨by decide, by decide, by decide, by decide⟩,
    c4_theorem (Configuration.mk 2 0 3 0 0 3 3) 0 1 (by decide) (by decide) (by decide)
      (by decide)⟩

/-- Claim C6.  With both the left neighbor and the cell at `index` Boolean:
equal value bits leave the whole configuration unchanged; unequal value
bits make the cell Intermediate, set the memory bit matching its own value
and its `taken` bit, and leave its value bit unchanged. -/
theorem c6_theorem (c : Configuration) (l i : Nat) (hi32 : i < 32)
    (hAl : c.alphabet.testBit l = false) (hAi : c.alphabet.testBit i = false) :
    (c.value.testBit l = c.value.testBit i → c.apply_local_function l i = c) ∧
    (c.value.testBit l ≠ c.value.testBit i →
      (c.apply_local_function l i).alphabet.testBit i = true ∧
      (c.apply_local_function l i).taken.testBit i = true ∧
      (c.value.testBit i = false → (c.apply_local_function l i).mem_0.testBit i = true) ∧
      (c.value.testBit i = true → (c.apply_local_function l i).mem_1.testBit i = true) ∧
      (c.apply_local_function l i).value.testBit i = c.value.testBit i) := by
  have hb := getCell_apply_local c l i hi32
  constructor
  · intro hv
    exact apply_local_id c l i hAl hAi hv
  · intro hv
    cases hVi : c.value.testBit i <;>
      simp [localTransition, getCell, hAl, hAi, hVi, hv, hVi ▸ hv] at hb <;>
      simp [hb.1, hb.2.1, hb.2.2.1, hb.2.2.2.1, hb.2.2.2.2, hVi]
/-- Claim C5.  Scanning step: with the left neighbor Intermediate and the
cell at `index` either Boolean or of a different color, the cell becomes
Intermediate, copies the left neighbor's color and memory bits, and then
captures its own value into the copied memory set (setting `taken`) unless
`taken` was already set or the value already has a matching memory bit;
the left neighbor's own attribute bits are never mutated. -/
theorem c5_theorem (c : Configuration) (l i : Nat) (hne : l ≠ i)
    (hl32 : l < 32) (hi32 : i < 32)
    (hAl : c.alphabet.testBit l = true)
    (hcase : c.alphabet.testBit i = false ∨ c.color.testBit l ≠ c.color.testBit i) :
    getCell (c.apply_local_function l i) l = getCell c l ∧
    (c.apply_local_function l i).alphabet.testBit i = true ∧
    (c.apply_local_function l i).color.testBit i = c.color.testBit l ∧
    (c.apply_local_function l i).value.testBit i = c.value.testBit i ∧
    (c.taken.testBit i = true →
      (c.apply_local_function l i).taken.testBit i = true ∧
      (c.apply_local_function l i).mem_0.testBit i = c.mem_0.testBit l ∧
      (c.apply_local_function l i).mem_1.testBit i = c.mem_1.testBit l) ∧
    (c.taken.testBit i = false →
      ((c.value.testBit i = false ∧ c.mem_0.testBit l = true) ∨
          (c.value.testBit i = true ∧ c.mem_1.testBit l = true) →
        (c.apply_local_function l i).taken.testBit i = false ∧
        (c.apply_local_function l i).mem_0.testBit i = c.mem_0.testBit l ∧
        (c.apply_local_function l i).mem_1.testBit i = c.mem_1.testBit l) ∧
      (¬((c.value.testBit i = false ∧ c.mem_0.testBit l = true) ∨
          (c.value.testBit i = true ∧ c.mem_1.testBit l = true)) →
        (c.apply_local_function l i).taken.testBit i = true ∧
        (c.value.testBit i = false →
          (c.apply_local_function l i).mem_0.testBit i = true ∧
          (c.apply_local_function l i).mem_1.testBit i = c.mem_1.testBit l) ∧
        (c.value.testBit i = true →
          (c.apply_local_function l i).mem_1.testBit i = true ∧
          (c.apply_local_function l i).mem_0.testBit i = c.mem_0.testBit l))) := by
  have hb := getCell_apply_local c l i hi32
  have hleft := getCell_apply_local_ne c l i l hne hl32
  rw [localTransition] at hb
  rw [if_neg (by simp [getCell, hAl])] at hb
  rw [if_pos (by simpa [getCell] using hcase)] at hb
  refine ⟨hleft, ?_⟩
  cases hTi : c.taken.testBit i
  · cases hVi : c.value.testBit i
    · cases hM0l : c.mem_0.testBit l
      · simp [getCell, hTi, hVi, hM0l] at hb
        simp [hb.1, hb.2.1, hb.2.2.1, hb.2.2.2.1, hb.2.2.2.2, hTi, hVi, hM0l]
      · simp [getCell, hTi, hVi, hM0l] at hb
        simp [hb.1, hb.2.1, hb.2.2.1, hb.2.2.2.1, hb.2.2.2.2, hTi, hVi, hM0l]
    · cases hM1l : c.mem_1.testBit l
      · simp [getCell, hTi, hVi, hM1l] at hb
        simp [hb.1, hb.2.1, hb.2.2.1, hb.2.2.2.1, hb.2.2.2.2, hTi, hVi, hM1l]
      · simp [getCell, hTi, hVi, hM1l] at hb
        simp [hb.1, hb.2.1, hb.2.2.1, hb.2.2.2.1, hb.2.2.2.2, hTi, hVi, hM1l]
  · simp [getCell, hTi] at hb
    simp [hb.1, hb.2.1, hb.2.2.1, hb.2.2.2.1, hb.2.2.2.2, hTi]

theorem c5_witness :
    ((0 : Nat) ≠ 1 ∧ 0 < 32 ∧ 1 < 32 ∧
      (Configuration.mk 2 0 1 0 0 1 0).alphabet.testBit 0 = true ∧
      ((Configuration.mk 2 0 1 0 0 1 0).alphabet.testBit 1 = false ∨
        (Configuration.mk 2 0 1 0 0 1 0).color.testBit 0 ≠
          (Configuration.mk 2 0 1 0 0 1 0).color.testBit 1)) ∧
    getCell ((Configuration.mk 2 0 1 0 0 1 0).apply_local_function 0 1) 0 =
      getCell (Configuration.mk 2 0 1 0 0 1 0) 0 ∧
    ((Configuration.mk 2 0 1 0 0 1 0).apply_local_function 0 1).alphabet.testBit 1 = true :=
  ⟨⟨by decide, by decide, by decide, by decide, by decide⟩,
    (c5_theorem (Configuration.mk 2 0 1 0 0 1 0) 0 1 (by decide) (by decide) (by decide)
      (by decide) (by decide)).1,
    (c5_theorem (Configuration.mk 2 0 1 0 0 1 0) 0 1 (by decide) (by decide) (by decide)
      (by decide) (by decide)).2.1⟩

theorem c6_witness :
    (1 < 32 ∧ (Configuration.new 1 2).alphabet.testBit 0 = false ∧
      (Configuration.new 1 2).alphabet.testBit 1 = false) ∧
    (((Configuration.new 1 2).value.testBit 0 = (Configuration.new 1 2).value.testBit 1 →
      (Configuration.new 1 2).apply_local_function 0 1 = Configuration.new 1 2) ∧
    ((Configuration.new 1 2).value.testBit 0 ≠ (Configuration.new 1 2).value.testBit 1 →
      ((Configuration.new 1 2).apply_local_function 0 1).alphabet.testBit 1 = true ∧
      ((Configuration.new 1 2).apply_local_function 0 1).taken.testBit 1 = true ∧
      ((Configuration.new 1 2).value.testBit 1 = false →
        ((Configuration.new 1 2).apply_local_function 0 1).mem_0.testBit 1 = true) ∧
      ((Configuration.new 1 2).value.testBit 1 = true →
        ((Configuration.new 1 2).apply_local_function 0 1).mem_1.testBit 1 = true) ∧
      ((Configuration.new 1 2).apply_local_function 0 1).value.testBit 1 =
        (Configuration.new 1 2).value.testBit 1)) :=
  ⟨⟨by decide, by decide, by decide⟩,
    c6_theorem (Configuration.new 1 2) 0 1 (by decide) (by decide) (by decide)⟩

/-- Claim C7.  For a Configuration with `1 ≤ size ≤ 31` whose six bit-fields
have no bits at positions `≥ size`, `has_converged()` is `true` iff no cell
is Intermediate and the value bits of the `size` cells are uniformly 0 or
uniformly 1.  (The function takes `&self` in the source; in this pure
embedding it is a function of the configuration, so it mutates nothing by
construction.) -/
theorem c7_theorem (c : Configuration) (h1 : 1 ≤ c.size) (h2 : c.size ≤ 31)
    (hf : c.fields_lt) :
    c.has_converged = true ↔
      ((∀ k, k < c.size → c.alphabet.testBit k = false) ∧
       ((∀ k, k < c.size → c.value.testBit k = false) ∨
        (∀ k, k < c.size → c.value.testBit k = true))) := by
  obtain ⟨hv, ha, -, -, -, -⟩ := hf
  rw [Configuration.has_converged]
  simp only [Bool.and_eq_true, beq_iff_eq, Bool.or_eq_true]
  rw [Nat.one_shiftLeft, eq_zero_iff_forall_testBit ha,
    eq_zero_iff_forall_testBit hv, eq_pow_sub_one_iff_forall_testBit hv]

theorem c7_witness :
    (1 ≤ (Configuration.new 0 1).size ∧ (Configuration.new 0 1).size ≤ 31 ∧
      (Configuration.new 0 1).fields_lt) ∧
    ((Configuration.new 0 1).has_converged = true ↔
      ((∀ k, k < (Configuration.new 0 1).size →
          (Configuration.new 0 1).alphabet.testBit k = false) ∧
       ((∀ k, k < (Configuration.new 0 1).size →
          (Configuration.new 0 1).value.testBit k = false) ∨
        (∀ k, k < (Configuration.new 0 1).size →
          (Configuration.new 0 1).value.testBit k = true)))) :=
  ⟨⟨by decide, by decide, by decide⟩,
    c7_theorem (Configuration.new 0 1) (by decide) (by decide) (by decide)⟩

/-- Claim C8.  If the initial value has exactly as many 0s as 1s among the
`size` cells, `is_correct()` returns `true` immediately: no `update()` is
performed and the configuration is returned unchanged. -/
theorem c8_theorem (c : Configuration)
    (h : Configuration.count_0 c = Configuration.count_1 c) :
    c.is_correct = (true, c) := by
  rw [Configuration.is_correct, if_pos h]

theorem c8_witness :
    Configuration.count_0 (Configuration.new 1 2) =
      Configuration.count_1 (Configuration.new 1 2) ∧
    (Configuration.new 1 2).is_correct = (true, Configuration.new 1 2) :=
  ⟨by decide, c8_theorem (Configuration.new 1 2) (by decide)⟩

/-- Claim C9.  On a Configuration with `1 ≤ size ≤ 31`, in-range bit-fields
and `has_converged()` true, `update()` leaves every field unchanged, and so
does any number of further `update()` calls. -/
theorem c9_theorem (c : Configuration) (h1 : 1 ≤ c.size) (h2 : c.size ≤ 31)
    (hf : c.fields_lt) (hc : c.has_converged = true) :
    c.update = c ∧ ∀ n : Nat, Configuration.update^[n] c = c := by
  have h := update_of_converged c h1 hc
  refine ⟨h, ?_⟩
  intro n
  induction n with
  | zero => rfl
  | succ n ih => rw [Function.iterate_succ_apply, h, ih]

theorem c9_witness :
    (1 ≤ (Configuration.new 0 3).size ∧ (Configuration.new 0 3).size ≤ 31 ∧
      (Configuration.new 0 3).fields_lt ∧ (Configuration.new 0 3).has_converged = true) ∧
    ((Configuration.new 0 3).update = Configuration.new 0 3 ∧
      ∀ n : Nat, Configuration.update^[n] (Configuration.new 0 3) = Configuration.new 0 3) :=
  ⟨⟨by decide, by decide, by decide, by decide⟩,
    c9_theorem (Configuration.new 0 3) (by decide) (by decide) (by decide) (by decide)⟩

/-- Claim C10.  For `1 ≤ size ≤ 31` and `value < 2^size`, every bit-field of
`Configuration::new(value, size)` is below `2^size` (no bits at positions
`≥ size`), `update()` preserves this invariant (the local function writes
only bits at positions `< size`), and hence every iterate of `update()`
satisfies it. -/
theorem c10_theorem (value size : Nat) (h1 : 1 ≤ size) (h2 : size ≤ 31)
    (h3 : value < 2 ^ size) :
    (Configuration.new value size).fields_lt ∧
    (∀ c : Configuration, 1 ≤ c.size → c.fields_lt → c.update.fields_lt) ∧
    ∀ n : Nat, (Configuration.update^[n] (Configuration.new value size)).fields_lt := by
  have hnew : (Configuration.new value size).fields_lt := by
    refine ⟨h3, ?_, ?_, ?_, ?_, ?_⟩ <;> exact Nat.pos_pow_of_pos _ (by norm_num)
  refine ⟨hnew, fun c hc1 => update_fields_lt c hc1, ?_⟩
  intro n
  induction n with
  | zero => exact hnew
  | succ n ih =>
    rw [Function.iterate_succ_apply']
    refine update_fields_lt _ ?_ ih
    rw [iterate_update_size]
    exact h1

theorem c10_witness :
    (1 ≤ 3 ∧ 3 ≤ 31 ∧ 2 < 2 ^ 3) ∧
    ((Configuration.new 2 3).fields_lt ∧
      (∀ c : Configuration, 1 ≤ c.size → c.fields_lt → c.update.fields_lt) ∧
      ∀ n : Nat, (Configuration.update^[n] (Configuration.new 2 3)).fields_lt) :=
  ⟨⟨by decide, by decide, by decide⟩, c10_theorem 2 3 (by decide) (by decide) (by decide)⟩
